import Mathlib

/-!
Verification of the API Access & Reliability Layer of the `easel` CLI.

Each definition is a shallow embedding of a function from the repository:

* `src/easel/api/rate_limit.py` — token-bucket `RateLimiter`
* `src/easel/api/exceptions.py` — error taxonomy
* `src/easel/api/client.py` — `_make_request` / `_handle_response`
* `src/src/easel/core/client.py` — `get_paginated`
* `src/src/easel/core/cache.py` — `CourseCache.refresh` / `resolve`
* `src/easel/config/credentials.py` — `CredentialManager`

Time, the network, the OS keyring and the filesystem are modelled as
explicit parameters or state; machine floats of the rate limiter are
modelled as rationals.
-/

namespace Easel

/-! ## Token bucket rate limiter (src/easel/api/rate_limit.py)

`RateLimiter.__init__` sets `bucket_capacity = requests_per_second` and
starts with a full bucket.  `last_refill` is represented implicitly: each
refill receives the elapsed time since the previous one as a parameter. -/

structure RateLimiter where
  requests_per_second : ℚ
  bucket_capacity : ℚ
  tokens : ℚ
  deriving Repr, DecidableEq

def RateLimiter.init (rps : ℚ) : RateLimiter :=
  { requests_per_second := rps, bucket_capacity := rps, tokens := rps }

/-- `_refill_bucket`: `tokens = min(bucket_capacity, tokens + elapsed * requests_per_second)`. -/
def refill_bucket (st : RateLimiter) (elapsed : ℚ) : RateLimiter :=
  { st with
    tokens := min st.bucket_capacity (st.tokens + elapsed * st.requests_per_second) }

/-- The decrement step of `acquire`: `if self.tokens >= 1: self.tokens -= 1`.
When fewer than one token is available the state is unchanged (the real
loop then sleeps and refills again, which is a separate `refill` step). -/
def acquire_decrement (st : RateLimiter) : RateLimiter :=
  if 1 ≤ st.tokens then { st with tokens := st.tokens - 1 } else st

/-- `set_rate_limit`: updates rate and capacity, clamping `tokens` down if it
exceeds the new capacity. -/
def set_rate_limit (st : RateLimiter) (rps : ℚ) : RateLimiter :=
  let st1 := { st with requests_per_second := rps, bucket_capacity := rps }
  if st1.bucket_capacity < st1.tokens then { st1 with tokens := st1.bucket_capacity }
  else st1

/-- `reset`: back to full capacity. -/
def rl_reset (st : RateLimiter) : RateLimiter :=
  { st with tokens := st.bucket_capacity }

/-- One observable mutation of the limiter state.  `refill` carries the
elapsed monotonic time since the previous refill (`get_available_tokens`
is a bare `refill`; each iteration of `acquire` is a `refill` followed by
`acquireTok`). -/
inductive RLOp
  | refill (elapsed : ℚ)
  | acquireTok
  | setRate (rps : ℚ)
  | resetOp
  deriving Repr, DecidableEq

def rlStep (st : RateLimiter) : RLOp → RateLimiter
  | .refill e => refill_bucket st e
  | .acquireTok => acquire_decrement st
  | .setRate r => set_rate_limit st r
  | .resetOp => rl_reset st

/-- Environment assumptions on an operation: the monotonic clock never goes
backwards and configured rates are non-negative. -/
def RLOp.valid : RLOp → Prop
  | .refill e => 0 ≤ e
  | .setRate r => 0 ≤ r
  | _ => True

instance : DecidablePred RLOp.valid := by
  intro op
  cases op <;> simp only [RLOp.valid] <;> infer_instance

def RLInv (st : RateLimiter) : Prop :=
  0 ≤ st.requests_per_second ∧ st.bucket_capacity = st.requests_per_second ∧
    0 ≤ st.tokens ∧ st.tokens ≤ st.bucket_capacity

theorem rlStep_preserves (st : RateLimiter) (op : RLOp) (hst : RLInv st)
    (hop : op.valid) : RLInv (rlStep st op) := by
  obtain ⟨hrps, hcap, htok0, htokc⟩ := hst
  cases op with
  | refill e =>
    simp only [RLOp.valid] at hop
    dsimp only [rlStep, refill_bucket, RLInv]
    refine ⟨hrps, hcap, ?_, min_le_left _ _⟩
    have h1 : (0 : ℚ) ≤ st.tokens + e * st.requests_per_second :=
      add_nonneg htok0 (mul_nonneg hop hrps)
    have h2 : (0 : ℚ) ≤ st.bucket_capacity := hcap ▸ hrps
    exact le_min h2 h1
  | acquireTok =>
    dsimp only [rlStep, acquire_decrement, RLInv]
    split
    · refine ⟨hrps, hcap, ?_, ?_⟩
      · show (0 : ℚ) ≤ st.tokens - 1
        linarith
      · show st.tokens - 1 ≤ st.bucket_capacity
        linarith
    · exact ⟨hrps, hcap, htok0, htokc⟩
  | setRate r =>
    simp only [RLOp.valid] at hop
    dsimp only [rlStep, set_rate_limit, RLInv]
    split
    · exact ⟨hop, rfl, hop, le_refl _⟩
    · rename_i hnot
      exact ⟨hop, rfl, htok0, le_of_not_lt hnot⟩
  | resetOp =>
    dsimp only [rlStep, rl_reset, RLInv]
    exact ⟨hrps, hcap, hcap ▸ hrps, le_refl _⟩

theorem rl_foldl_inv (ops : List RLOp) (st : RateLimiter) (hst : RLInv st)
    (hops : ∀ op ∈ ops, op.valid) : RLInv (ops.foldl rlStep st) := by
  induction ops generalizing st with
  | nil => exact hst
  | cons op rest ih =>
    exact ih (rlStep st op)
      (rlStep_preserves st op hst (hops op (List.mem_cons_self op rest)))
      (fun o ho => hops o (List.mem_cons_of_mem _ ho))

/-- C4: for every sequence of acquire / set_rate_limit / reset / refill
operations on a token bucket constructed with a non-negative rate — each
refill seeing a non-negative elapsed time and each new rate non-negative —
`0 ≤ tokens ≤ bucket_capacity` holds at every observation point. -/
theorem easel_C4_token_bucket_bounds (rps : ℚ) (h : 0 ≤ rps) (ops : List RLOp)
    (hops : ∀ op ∈ ops, op.valid) :
    0 ≤ (ops.foldl rlStep (RateLimiter.init rps)).tokens ∧
      (ops.foldl rlStep (RateLimiter.init rps)).tokens ≤
        (ops.foldl rlStep (RateLimiter.init rps)).bucket_capacity := by
  have hinit : RLInv (RateLimiter.init rps) := ⟨h, rfl, h, le_refl _⟩
  obtain ⟨_, _, h0, hc⟩ := rl_foldl_inv ops _ hinit hops
  exact ⟨h0, hc⟩

theorem easel_C4_witness :
    0 ≤ (([RLOp.refill 1, RLOp.setRate 2, RLOp.acquireTok, RLOp.resetOp,
            RLOp.refill (1/2), RLOp.acquireTok].foldl rlStep
            (RateLimiter.init 3)).tokens) ∧
      (([RLOp.refill 1, RLOp.setRate 2, RLOp.acquireTok, RLOp.resetOp,
            RLOp.refill (1/2), RLOp.acquireTok].foldl rlStep
            (RateLimiter.init 3)).tokens) ≤
        (([RLOp.refill 1, RLOp.setRate 2, RLOp.acquireTok, RLOp.resetOp,
            RLOp.refill (1/2), RLOp.acquireTok].foldl rlStep
            (RateLimiter.init 3)).bucket_capacity) :=
  easel_C4_token_bucket_bounds 3 (by norm_num) _ (by
    intro op hop
    fin_cases hop <;> norm_num [RLOp.valid])

/-! ## `RateLimiter.acquire` with an explicit clock (src/easel/api/rate_limit.py)

The waiting loop of `acquire` is modelled with an explicit monotonic clock
`now` carried in the state.  Each iteration refills the bucket from
`last_refill`, admits if a full token is available, otherwise checks the
optional timeout against `now - start_time` and sleeps `1/rps` seconds,
which advances the clock by exactly the slept amount.  The `while True`
loop of the source is given fuel; `waiting` is the model's marker for a
loop that has not terminated within its fuel. -/

structure AcquireState where
  tokens : ℚ
  last_refill : ℚ
  now : ℚ
  deriving Repr, DecidableEq

inductive AcquireResult
  | ok (st : AcquireState)
  | timedOut (elapsed : ℚ)
  | waiting (st : AcquireState)
  deriving Repr, DecidableEq

def acquire_loop (rps capacity start_time : ℚ) (timeout : Option ℚ) :
    Nat → AcquireState → AcquireResult
  | 0, st => .waiting st
  | fuel + 1, st =>
    let refilled : AcquireState :=
      { tokens := min capacity (st.tokens + (st.now - st.last_refill) * rps),
        last_refill := st.now, now := st.now }
    if 1 ≤ refilled.tokens then .ok { refilled with tokens := refilled.tokens - 1 }
    else
      let elapsed := refilled.now - start_time
      let slept : AcquireState := { refilled with now := refilled.now + 1 / rps }
      match timeout with
      | some t =>
        if t ≤ elapsed then .timedOut elapsed
        else acquire_loop rps capacity start_time (some t) fuel slept
      | none => acquire_loop rps capacity start_time none fuel slept

theorem acquire_refill_below_one (rps : ℚ) (h1 : rps < 1) (st : AcquireState) :
    ¬ (1 : ℚ) ≤ min rps (st.tokens + (st.now - st.last_refill) * rps) := by
  intro hc
  exact absurd (le_trans hc (min_le_left _ _)) (not_le.mpr h1)

theorem acquire_loop_never_ok (rps start_time : ℚ) (h1 : rps < 1)
    (timeout : Option ℚ) (fuel : Nat) (st : AcquireState) :
    ∀ st', acquire_loop rps rps start_time timeout fuel st ≠ .ok st' := by
  cases timeout with
  | none =>
    induction fuel generalizing st with
    | zero => intro st' h; exact AcquireResult.noConfusion h
    | succ n ih =>
      intro st' h
      rw [acquire_loop, if_neg (acquire_refill_below_one rps h1 st)] at h
      dsimp only at h
      exact ih _ _ h
  | some t =>
    induction fuel generalizing st with
    | zero => intro st' h; exact AcquireResult.noConfusion h
    | succ n ih =>
      intro st' h
      rw [acquire_loop, if_neg (acquire_refill_below_one rps h1 st)] at h
      dsimp only at h
      split at h
      · exact AcquireResult.noConfusion h
      · exact ih _ _ h

theorem acquire_loop_hits_timeout (rps start_time t : ℚ) (h1 : rps < 1) :
    ∀ (n : Nat) (st : AcquireState),
      start_time + t ≤ st.now + n * (1 / rps) →
      ∃ e, acquire_loop rps rps start_time (some t) (n + 1) st = .timedOut e ∧ t ≤ e := by
  intro n
  induction n with
  | zero =>
    intro st hn
    refine ⟨st.now - start_time, ?_, by push_cast at hn; linarith⟩
    rw [acquire_loop, if_neg (acquire_refill_below_one rps h1 st)]
    dsimp only
    rw [if_pos (by push_cast at hn; linarith)]
  | succ m ih =>
    intro st hn
    by_cases hel : t ≤ st.now - start_time
    · refine ⟨st.now - start_time, ?_, hel⟩
      rw [acquire_loop, if_neg (acquire_refill_below_one rps h1 st)]
      dsimp only
      rw [if_pos hel]
    · have hstep :
          acquire_loop rps rps start_time (some t) (m + 1 + 1) st =
            acquire_loop rps rps start_time (some t) (m + 1)
              { tokens := min rps (st.tokens + (st.now - st.last_refill) * rps),
                last_refill := st.now, now := st.now + 1 / rps } := by
        rw [acquire_loop, if_neg (acquire_refill_below_one rps h1 st)]
        dsimp only
        rw [if_neg hel]
      rw [hstep]
      apply ih
      dsimp only
      push_cast at hn ⊢
      linarith

/-- C10: a limiter constructed with `requests_per_second < 1` has
`bucket_capacity = requests_per_second < 1`, and since every refill clamps
`tokens` to at most the capacity, the admission branch `tokens >= 1` is
never taken: `acquire` with `timeout=None` never returns for any initial
bucket state, and with any timeout it fails with the rate-limit-timeout
error. -/
theorem easel_C10_sub_one_rate_never_admits (rps start_time : ℚ)
    (h0 : 0 < rps) (h1 : rps < 1) (st : AcquireState) :
    (∀ fuel st', acquire_loop rps rps start_time none fuel st ≠ .ok st') ∧
      (∀ t : ℚ, ∃ fuel e,
        acquire_loop rps rps start_time (some t) fuel st = .timedOut e ∧ t ≤ e) := by
  constructor
  · intro fuel
    exact acquire_loop_never_ok rps start_time h1 none fuel st
  · intro t
    obtain ⟨n, hn⟩ := exists_nat_ge ((start_time + t - st.now) * rps)
    refine ⟨n + 1, ?_⟩
    apply acquire_loop_hits_timeout rps start_time t h1 n st
    have hmul : (start_time + t - st.now) ≤ n * (1 / rps) := by
      rw [mul_one_div, le_div_iff₀ h0]
      exact hn
    linarith

theorem easel_C10_witness :
    (∀ fuel st', acquire_loop (1/2) (1/2) 0 none fuel ⟨1/2, 0, 0⟩ ≠ .ok st') ∧
      (∀ t : ℚ, ∃ fuel e,
        acquire_loop (1/2) (1/2) 0 (some t) fuel ⟨1/2, 0, 0⟩ = .timedOut e ∧ t ≤ e) :=
  easel_C10_sub_one_rate_never_admits (1/2) 0 (by norm_num) (by norm_num) ⟨1/2, 0, 0⟩

/-! ## Error taxonomy (src/easel/api/exceptions.py)

One constructor per exception class.  `canvasAPIError` is the base class,
raised directly for unclassified failures; there is no connection-specific
subclass in the source. -/

inductive CanvasError
  | canvasAPIError (message : String) (status_code : Option Nat)
  | canvasAuthError (message : String) (status_code : Option Nat)
  | canvasNotFoundError (message : String) (status_code : Option Nat)
  | canvasRateLimitError (message : String) (status_code : Option Nat)
      (retry_after : Option Nat)
  | canvasServerError (message : String) (status_code : Option Nat)
  | canvasTimeoutError (message : String) (status_code : Option Nat)
  | canvasValidationError (message : String) (status_code : Option Nat)
  | canvasPermissionError (message : String) (status_code : Option Nat)
  deriving Repr, DecidableEq

/-- True exactly when the error is the generic base class
`CanvasAPIError`, i.e. none of the seven specific subclasses. -/
def CanvasError.isBaseAPIError : CanvasError → Bool
  | .canvasAPIError _ _ => true
  | _ => false

/-! ## `_handle_response` (src/easel/api/client.py, lines 157-213) -/

/-- The response fields `_handle_response` consumes.  `json_message` is
`some (some m)` when the body parses as JSON with a `message` field,
`some none` when it parses without one, and `none` when parsing fails. -/
structure HttpResponse where
  status_code : Nat
  json_message : Option (Option String)
  reason_phrase : String
  retry_after_header : Option String
  deriving Repr, DecidableEq

/-- httpx `response.is_success`: a 2xx status. -/
def HttpResponse.is_success (r : HttpResponse) : Bool :=
  decide (200 ≤ r.status_code) && decide (r.status_code < 300)

/-- `error_data.get("message", f"HTTP {status}")`, falling back to
`f"HTTP {status}: {reason}"` when the body is not JSON. -/
def response_error_message (r : HttpResponse) : String :=
  match r.json_message with
  | some (some m) => m
  | some none => "HTTP " ++ toString r.status_code
  | none => "HTTP " ++ toString r.status_code ++ ": " ++ r.reason_phrase

/-- Python `int(...)` on a header value, restricted to the plain
digit-string forms a `Retry-After` header carries (sign and surrounding
whitespace, which Python's `int` would also accept, are not modelled). -/
def parse_int_string (s : String) : Option Nat :=
  if s.data.isEmpty then none
  else if s.data.all Char.isDigit then
    some (s.data.foldl (fun acc c => acc * 10 + (c.toNat - 48)) 0)
  else none

/-- `int(response.headers["Retry-After"])` with `ValueError` swallowed. -/
def parse_retry_after (r : HttpResponse) : Option Nat :=
  r.retry_after_header.bind parse_int_string

/-- `_handle_response`: `none` on a 2xx, otherwise the exception it raises. -/
def handle_response (r : HttpResponse) : Option CanvasError :=
  if r.is_success then none
  else
    let msg := response_error_message r
    if r.status_code = 429 then
      some (.canvasRateLimitError msg (some r.status_code) (parse_retry_after r))
    else if r.status_code = 401 then some (.canvasAuthError msg (some r.status_code))
    else if r.status_code = 403 then some (.canvasPermissionError msg (some r.status_code))
    else if r.status_code = 404 then some (.canvasNotFoundError msg (some r.status_code))
    else if 400 ≤ r.status_code ∧ r.status_code < 500 then
      some (.canvasValidationError msg (some r.status_code))
    else if 500 ≤ r.status_code then some (.canvasServerError msg (some r.status_code))
    else some (.canvasAPIError msg (some r.status_code))

/-! ## `_make_request` (src/easel/api/client.py, lines 112-155)

The environment of one attempt: either `rate_limiter.acquire` raises the
rate-limit-timeout `CanvasRateLimitError` (whose `retry_after` is `None`),
or the HTTP call raises a transport timeout (`httpx.TimeoutException`) or
another `httpx.RequestError`, or it yields a response, which
`_handle_response` then classifies. -/

inductive AttemptEnv
  | response (r : HttpResponse)
  | timeoutExc
  | requestErrorExc (message : String)
  | acquireRateLimitTimeout (message : String)
  deriving Repr, DecidableEq

/-- How the `try` body of one loop iteration ends: a returned response, one
of the three caught-and-retried exception classes, or an uncaught
(immediately propagated) error. -/
inductive AttemptOutcome
  | success (r : HttpResponse)
  | retryTimeout
  | retryRequestError (message : String)
  | retryRateLimit (message : String) (status_code : Option Nat) (retry_after : Option Nat)
  | fatal (e : CanvasError)
  deriving Repr, DecidableEq

def attempt_step (env : AttemptEnv) : AttemptOutcome :=
  match env with
  | .acquireRateLimitTimeout m => .retryRateLimit m none none
  | .timeoutExc => .retryTimeout
  | .requestErrorExc m => .retryRequestError m
  | .response r =>
    match handle_response r with
    | none => .success r
    | some (.canvasRateLimitError m s ra) => .retryRateLimit m s ra
    | some e => .fatal e

inductive RunOutcome
  | success (r : HttpResponse)
  | failure (e : CanvasError)
  deriving Repr, DecidableEq

/-- The observable result of `_make_request`: its outcome, how many
attempts were issued, and the durations passed to `asyncio.sleep`
between consecutive attempts, in order. -/
structure RunResult where
  outcome : RunOutcome
  attempts : Nat
  sleeps : List Nat
  deriving Repr, DecidableEq

/-- The sleep taken before retrying a caught `CanvasRateLimitError`:
`if e.retry_after: sleep(e.retry_after) else: sleep(2**attempt)` —
note Python truthiness treats `retry_after = 0` like `None`. -/
def backoff_sleep (retry_after : Option Nat) (attempt : Nat) : Nat :=
  match retry_after with
  | some n => if n ≠ 0 then n else 2 ^ attempt
  | none => 2 ^ attempt

/-- The retry loop of `_make_request`: `for attempt in range(max_retries + 1)`.
`fuel` is the number of iterations the `for` has left (initially
`max_retries + 1`); exhausting it corresponds to falling out of the loop
into `raise CanvasAPIError("Max retries exceeded")`. -/
def make_request_loop (env : Nat → AttemptEnv) (max_retries : Nat) :
    Nat → Nat → RunResult
  | _, 0 => ⟨.failure (.canvasAPIError "Max retries exceeded" none), 0, []⟩
  | attempt, fuel + 1 =>
    match attempt_step (env attempt) with
    | .success r => ⟨.success r, 1, []⟩
    | .fatal e => ⟨.failure e, 1, []⟩
    | .retryTimeout =>
      if attempt = max_retries then
        ⟨.failure (.canvasTimeoutError
            ("Request timeout after " ++ toString max_retries ++ " retries") none), 1, []⟩
      else
        let rest := make_request_loop env max_retries (attempt + 1) fuel
        ⟨rest.outcome, rest.attempts + 1, 2 ^ attempt :: rest.sleeps⟩
    | .retryRequestError m =>
      if attempt = max_retries then
        ⟨.failure (.canvasAPIError ("Request failed: " ++ m) none), 1, []⟩
      else
        let rest := make_request_loop env max_retries (attempt + 1) fuel
        ⟨rest.outcome, rest.attempts + 1, 2 ^ attempt :: rest.sleeps⟩
    | .retryRateLimit m s ra =>
      if attempt = max_retries then
        ⟨.failure (.canvasRateLimitError m s ra), 1, []⟩
      else
        let rest := make_request_loop env max_retries (attempt + 1) fuel
        ⟨rest.outcome, rest.attempts + 1, backoff_sleep ra attempt :: rest.sleeps⟩

def make_request (env : Nat → AttemptEnv) (max_retries : Nat) : RunResult :=
  make_request_loop env max_retries 0 (max_retries + 1)

def AttemptOutcome.isRetry : AttemptOutcome → Bool
  | .retryTimeout => true
  | .retryRequestError _ => true
  | .retryRateLimit _ _ _ => true
  | _ => false

/-- The error `_make_request` raises when a retryable outcome occurs on the
final attempt. -/
def retry_error (o : AttemptOutcome) (max_retries : Nat) : CanvasError :=
  match o with
  | .retryTimeout =>
    .canvasTimeoutError ("Request timeout after " ++ toString max_retries ++ " retries") none
  | .retryRequestError m => .canvasAPIError ("Request failed: " ++ m) none
  | .retryRateLimit m s ra => .canvasRateLimitError m s ra
  | _ => .canvasAPIError "Max retries exceeded" none

/-- The sleep `_make_request` takes before retrying a retryable outcome. -/
def retry_sleep (o : AttemptOutcome) (attempt : Nat) : Nat :=
  match o with
  | .retryRateLimit _ _ ra => backoff_sleep ra attempt
  | _ => 2 ^ attempt

theorem range_map_shift {α : Type} (g : Nat → α) (n start : Nat) :
    (List.range (n + 1)).map (fun i => g (start + i)) =
      g start :: (List.range n).map (fun i => g (start + 1 + i)) := by
  rw [List.range_succ_eq_map, List.map_cons, List.map_map, Nat.add_zero]
  have hcomp : ((fun i => g (start + i)) ∘ Nat.succ) = fun i => g (start + 1 + i) := by
    funext i
    show g (start + (i + 1)) = g (start + 1 + i)
    exact congrArg g (by omega)
  rw [hcomp]

/-- When every attempt ends in the same retryable outcome, `_make_request`
spends all remaining attempts, sleeping the outcome's backoff between
consecutive ones, and raises the outcome's final-attempt error. -/
theorem make_request_loop_const (c : AttemptEnv) (max_retries : Nat)
    (o : AttemptOutcome) (hstep : attempt_step c = o) (hretry : o.isRetry = true) :
    ∀ fuel attempt, attempt + fuel = max_retries + 1 → 1 ≤ fuel →
      make_request_loop (fun _ => c) max_retries attempt fuel =
        ⟨.failure (retry_error o max_retries), fuel,
          (List.range (fuel - 1)).map (fun i => retry_sleep o (attempt + i))⟩ := by
  intro fuel
  induction fuel with
  | zero =>
    intro attempt _ h1
    exact absurd h1 (by omega)
  | succ f ih =>
    intro attempt hsum _
    rw [make_request_loop]
    show (match attempt_step c with
      | _ => _ : RunResult) = _
    rw [hstep]
    by_cases hatt : attempt = max_retries
    · have hf : f = 0 := by omega
      subst hf
      subst hatt
      cases o with
      | retryTimeout => simp [retry_error]
      | retryRequestError m => simp [retry_error]
      | retryRateLimit m s ra => simp [retry_error]
      | success r => exact absurd hretry (by simp [AttemptOutcome.isRetry])
      | fatal e => exact absurd hretry (by simp [AttemptOutcome.isRetry])
    · have hf : 1 ≤ f := by omega
      have hrec := ih (attempt + 1) (by omega) hf
      have hf1 : f - 1 + 1 = f := by omega
      cases o with
      | retryTimeout =>
        simp only [if_neg hatt]
        rw [hrec]
        refine congrArg₂ _ rfl ?_
        have := range_map_shift (fun a => retry_sleep .retryTimeout a) (f - 1) attempt
        rw [hf1] at this
        simpa [retry_sleep] using this.symm
      | retryRequestError m =>
        simp only [if_neg hatt]
        rw [hrec]
        refine congrArg₂ _ rfl ?_
        have := range_map_shift (fun a => retry_sleep (.retryRequestError m) a) (f - 1) attempt
        rw [hf1] at this
        simpa [retry_sleep] using this.symm
      | retryRateLimit m s ra =>
        simp only [if_neg hatt]
        rw [hrec]
        refine congrArg₂ _ rfl ?_
        have := range_map_shift (fun a => retry_sleep (.retryRateLimit m s ra) a) (f - 1) attempt
        rw [hf1] at this
        simpa [retry_sleep] using this.symm
      | success r => exact absurd hretry (by simp [AttemptOutcome.isRetry])
      | fatal e => exact absurd hretry (by simp [AttemptOutcome.isRetry])

def okResponse : HttpResponse :=
  { status_code := 200, json_message := some none, reason_phrase := "OK",
    retry_after_header := none }

/-- Attempt 0: `rate_limiter.acquire` raises its rate-limit-timeout
`CanvasRateLimitError`; every later attempt gets a plain 200. -/
def envAcquireTimeoutOnce : Nat → AttemptEnv
  | 0 => .acquireRateLimitTimeout "Rate limit timeout after 30.00s"
  | _ => .response okResponse

/-- C1 is false as stated: a rate-limit-timeout raised by
`RateLimiter.acquire` on attempt 0 is NOT returned to the caller
immediately — the `except CanvasRateLimitError` clause of the retry loop
catches it, sleeps `2**0 = 1` second, and the request then succeeds on
attempt 1 (2 attempts in total instead of an immediate fatal error). -/
theorem easel_C1_counterexample :
    make_request envAcquireTimeoutOnce 3 = ⟨.success okResponse, 2, [1]⟩ := by
  rfl

/-- C1 (amended): a rate-limit-timeout raised by `RateLimiter.acquire` is
caught by the outer retry loop exactly like an HTTP 429 whose
`retry_after` is absent: each non-final occurrence is followed by a
`2**attempt` backoff sleep and a retry, and only when it occurs on the
final attempt is the `CanvasRateLimitError` re-raised to the caller
(after `max_retries + 1` total attempts). -/
theorem easel_C1_acquire_timeout_retried (m : String) (max_retries : Nat) :
    make_request (fun _ => .acquireRateLimitTimeout m) max_retries =
      ⟨.failure (.canvasRateLimitError m none none), max_retries + 1,
        (List.range max_retries).map (fun i => 2 ^ i)⟩ := by
  have h := make_request_loop_const (.acquireRateLimitTimeout m) max_retries
    (.retryRateLimit m none none) rfl rfl (max_retries + 1) 0 (by omega) (by omega)
  unfold make_request
  rw [h]
  simp [retry_error, retry_sleep, backoff_sleep]

/-- C2 is false in its connection-failure half: when every attempt raises
a (non-timeout) `httpx.RequestError`, the final error is the generic
base-class `CanvasAPIError` — `src/easel/api/exceptions.py` defines no
connection-specific subclass at all.  The attempt count (4 = 3 + 1) and
the exponential sleeps `[1, 2, 4]` do hold. -/
theorem easel_C2_counterexample :
    make_request (fun _ => .requestErrorExc "Connection refused") 3 =
      ⟨.failure (.canvasAPIError "Request failed: Connection refused" none), 4, [1, 2, 4]⟩ ∧
      (CanvasError.canvasAPIError "Request failed: Connection refused" none).isBaseAPIError
        = true := by
  exact ⟨rfl, rfl⟩

/-- C2 (amended): when every attempt fails at the transport level,
`_make_request` performs exactly `max_retries + 1` attempts with
`2**attempt` sleeps between consecutive ones, and then raises
`CanvasTimeoutError` for transport timeouts but only the generic
`CanvasAPIError` ("Request failed: ...") for other connection failures —
no connection-specific error class exists. -/
theorem easel_C2_transport_failure_retries (max_retries : Nat) (m : String) :
    make_request (fun _ => .timeoutExc) max_retries =
      ⟨.failure (.canvasTimeoutError
          ("Request timeout after " ++ toString max_retries ++ " retries") none),
        max_retries + 1, (List.range max_retries).map (fun i => 2 ^ i)⟩ ∧
    make_request (fun _ => .requestErrorExc m) max_retries =
      ⟨.failure (.canvasAPIError ("Request failed: " ++ m) none),
        max_retries + 1, (List.range max_retries).map (fun i => 2 ^ i)⟩ := by
  constructor
  · have h := make_request_loop_const .timeoutExc max_retries
      .retryTimeout rfl rfl (max_retries + 1) 0 (by omega) (by omega)
    unfold make_request
    rw [h]
    simp [retry_error, retry_sleep]
  · have h := make_request_loop_const (.requestErrorExc m) max_retries
      (.retryRequestError m) rfl rfl (max_retries + 1) 0 (by omega) (by omega)
    unfold make_request
    rw [h]
    simp [retry_error, retry_sleep]

/-- A 429 whose `Retry-After` header parses as 2. -/
def r429RetryAfter2 : HttpResponse :=
  { status_code := 429, json_message := some (some "Rate limited"),
    reason_phrase := "Too Many Requests", retry_after_header := some "2" }

def env429Then200 : Nat → AttemptEnv
  | 0 => .response r429RetryAfter2
  | _ => .response okResponse

/-- C5: a single 429 carrying `Retry-After: 2` followed by a 200 yields
exactly 2 attempts with a single sleep of exactly the parsed value 2
(not the exponential `2**0 = 1`); and when every attempt (hence also the
final one) gets a 429 whose header parses to `v`, the raised
`CanvasRateLimitError` carries `retry_after = v`. -/
theorem easel_C5_retry_after_handling :
    make_request env429Then200 3 = ⟨.success okResponse, 2, [2]⟩ ∧
      (∀ (max_retries : Nat) (jm : Option (Option String)) (rp s : String) (v : Nat),
        parse_int_string s = some v →
        make_request (fun _ => .response
            { status_code := 429, json_message := jm, reason_phrase := rp,
              retry_after_header := some s }) max_retries =
          ⟨.failure (.canvasRateLimitError
              (response_error_message
                { status_code := 429, json_message := jm, reason_phrase := rp,
                  retry_after_header := some s }) (some 429) (some v)),
            max_retries + 1,
            (List.range max_retries).map (fun i => backoff_sleep (some v) i)⟩) := by
  constructor
  · rfl
  · intro max_retries jm rp s v hv
    have hstep : attempt_step (.response
        { status_code := 429, json_message := jm, reason_phrase := rp,
          retry_after_header := some s }) =
        .retryRateLimit (response_error_message
          { status_code := 429, json_message := jm, reason_phrase := rp,
            retry_after_header := some s }) (some 429) (some v) := by
      simp [attempt_step, handle_response, HttpResponse.is_success, parse_retry_after, hv]
    have h := make_request_loop_const _ max_retries _ hstep rfl
      (max_retries + 1) 0 (by omega) (by omega)
    unfold make_request
    rw [h]
    simp [retry_error, retry_sleep]

theorem easel_C5_witness :
    make_request env429Then200 3 = ⟨.success okResponse, 2, [2]⟩ ∧
      make_request (fun _ => .response
          { status_code := 429, json_message := some (some "Rate limited"),
            reason_phrase := "Too Many Requests", retry_after_header := some "2" }) 1 =
        ⟨.failure (.canvasRateLimitError "Rate limited" (some 429) (some 2)), 2, [2]⟩ := by
  refine ⟨easel_C5_retry_after_handling.1, ?_⟩
  have h := easel_C5_retry_after_handling.2 1 (some (some "Rate limited"))
    "Too Many Requests" "2" 2 (by rfl)
  exact h

/-! ## `get_paginated` (src/src/easel/core/client.py, lines 92-122)

Counter-idiom pagination: `page=N&per_page=P` starting at `N = 1`.  The
network is the function `fetchPage` from a page number to the JSON list
that page returns (a counter-idiom collection endpoint always returns a
list, so the `else` branch for a single JSON object is not exercised).
The `while True` loop carries fuel; each iteration issues exactly one
request, so the second component counts requests issued. -/

def get_paginated_loop {α : Type} (fetchPage : Nat → List α) (per_page : Nat) :
    Nat → Nat → List α × Nat
  | _, 0 => ([], 0)
  | page, fuel + 1 =>
    let response := fetchPage page
    if response.isEmpty then ([], 1)
    else if response.length < per_page then (response, 1)
    else
      let rest := get_paginated_loop fetchPage per_page (page + 1) fuel
      (response ++ rest.1, rest.2 + 1)

def get_paginated {α : Type} (fetchPage : Nat → List α) (per_page : Nat)
    (fuel : Nat) : List α × Nat :=
  get_paginated_loop fetchPage per_page 1 fuel

theorem get_paginated_loop_spec {α : Type} (fetchPage : Nat → List α) (P : Nat) :
    ∀ (n start fuel : Nat), n + 1 ≤ fuel →
      (∀ j, start ≤ j → j < start + n → P ≤ (fetchPage j).length) →
      (fetchPage (start + n)).length < P →
      get_paginated_loop fetchPage P start fuel =
        (((List.range (n + 1)).map (fun i => fetchPage (start + i))).flatten, n + 1) := by
  intro n
  induction n with
  | zero =>
    intro start fuel hfuel _ hlast
    obtain ⟨f, rfl⟩ : ∃ f, fuel = f + 1 := ⟨fuel - 1, by omega⟩
    rw [get_paginated_loop]
    simp only [Nat.add_zero] at hlast
    by_cases hemp : (fetchPage start).isEmpty
    · rw [if_pos hemp]
      simp [List.isEmpty_iff.mp hemp]
    · rw [if_neg hemp, if_pos hlast]
      show (fetchPage start, 1) = (((List.range 1).map (fun i => fetchPage (start + i))).flatten, 1)
      rw [show List.range 1 = [0] from rfl]
      simp
  | succ m ih =>
    intro start fuel hfuel hfull hlast
    obtain ⟨f, rfl⟩ : ∃ f, fuel = f + 1 := ⟨fuel - 1, by omega⟩
    have hstart : P ≤ (fetchPage start).length :=
      hfull start (le_refl _) (by omega)
    have hP : 1 ≤ P := by omega
    have hemp : ¬ (fetchPage start).isEmpty = true := by
      intro hc
      rw [List.isEmpty_iff.mp hc] at hstart
      simp at hstart
      omega
    rw [get_paginated_loop, if_neg hemp, if_neg (not_lt.mpr hstart)]
    have hrec := ih (start + 1) f (by omega)
      (fun j hj1 hj2 => hfull j (by omega) (by omega))
      (by
        have heq : start + 1 + m = start + (m + 1) := by omega
        rw [heq]
        exact hlast)
    rw [hrec]
    dsimp only
    rw [range_map_shift fetchPage (m + 1) start, List.flatten_cons]

/-- C6: querying a counter-idiom endpoint whose first `k - 1` pages each
hold at least `P` items while page `k` holds strictly fewer (possibly 0),
`get_paginated` returns the concatenation of pages `1 .. k` in order and
issues exactly `k` requests — no request beyond page `k` and no
out-of-band total count. -/
theorem easel_C6_counter_pagination {α : Type} (fetchPage : Nat → List α)
    (P k fuel : Nat) (hk : 1 ≤ k) (hfuel : k ≤ fuel)
    (hfull : ∀ j, 1 ≤ j → j < k → P ≤ (fetchPage j).length)
    (hlast : (fetchPage k).length < P) :
    get_paginated fetchPage P fuel =
      (((List.range k).map (fun i => fetchPage (1 + i))).flatten, k) := by
  obtain ⟨n, rfl⟩ : ∃ n, k = n + 1 := ⟨k - 1, by omega⟩
  exact get_paginated_loop_spec fetchPage P n 1 fuel (by omega)
    (fun j hj1 hj2 => hfull j hj1 (by omega))
    (by
      have h1n : 1 + n = n + 1 := by omega
      rw [h1n]
      exact hlast)

/-- Pages for the C6 witness: page 1 is full (2 items), page 2 is short. -/
def pagesShortLast : Nat → List Nat
  | 1 => [10, 11]
  | 2 => [12]
  | _ => []

/-- Pages for the C6 witness: page 1 is full, page 2 is empty. -/
def pagesEmptyLast : Nat → List Nat
  | 1 => [10, 11]
  | _ => []

theorem easel_C6_witness :
    get_paginated pagesShortLast 2 5 = ([10, 11, 12], 2) ∧
      get_paginated pagesEmptyLast 2 5 = ([10, 11], 2) := by
  constructor
  · have h := easel_C6_counter_pagination pagesShortLast 2 2 5 (by omega) (by omega)
      (fun j hj1 hj2 => by
        have hj : j = 1 := by omega
        subst hj
        simp [pagesShortLast])
      (by simp [pagesShortLast])
    rw [h]
    rfl
  · have h := easel_C6_counter_pagination pagesEmptyLast 2 2 5 (by omega) (by omega)
      (fun j hj1 hj2 => by
        have hj : j = 1 := by omega
        subst hj
        simp [pagesEmptyLast])
      (by simp [pagesEmptyLast])
    rw [h]
    rfl

/-! ## Bidirectional course cache (src/src/easel/core/cache.py)

Python dicts keyed by strings are modelled as association lists in
insertion order: assigning to an existing key updates its entry in place,
assigning a fresh key appends. -/

def dinsert {β : Type} (m : List (String × β)) (k : String) (v : β) :
    List (String × β) :=
  if m.any (fun p => p.1 == k) then
    m.map (fun p => if p.1 == k then (k, v) else p)
  else m ++ [(k, v)]

def dlookup {β : Type} (m : List (String × β)) (k : String) : Option β :=
  (m.find? (fun p => p.1 == k)).map Prod.snd

/-- A course record as `refresh` reads it: `course.get("id", "")` (a JSON
number or absent) and `course.get("course_code", "")`. -/
structure CourseRec where
  id : Option Int
  course_code : Option String
  deriving Repr, DecidableEq

/-- `cid = str(course.get("id", ""))`. -/
def cidStr (c : CourseRec) : String :=
  match c.id with
  | some n => toString n
  | none => ""

/-- `code = course.get("course_code", "")`. -/
def codeStr (c : CourseRec) : String :=
  c.course_code.getD ""

/-- The `(cid, code)` pair kept by `refresh`'s `if cid and code:` filter
(Python truthiness: both strings non-empty). -/
def keptPair (c : CourseRec) : Option (String × String) :=
  let cid := cidStr c
  let code := codeStr c
  if cid ≠ "" ∧ code ≠ "" then some (cid, code) else none

structure CourseCache where
  code_to_id : List (String × String)
  id_to_code : List (String × String)
  deriving Repr, DecidableEq

/-- One iteration of `refresh`'s loop:
`self._code_to_id[code] = cid; self._id_to_code[cid] = code`. -/
def refreshStep (st : CourseCache) (c : CourseRec) : CourseCache :=
  match keptPair c with
  | some (cid, code) =>
    { code_to_id := dinsert st.code_to_id code cid,
      id_to_code := dinsert st.id_to_code cid code }
  | none => st

/-- `refresh`: clears both maps, then inserts every kept course of the
listing returned by `get_paginated("/courses", ...)`. -/
def refresh (courses : List CourseRec) : CourseCache :=
  courses.foldl refreshStep { code_to_id := [], id_to_code := [] }

/-- Python `str.isdigit` restricted to ASCII digit strings (non-empty,
digits only), the forms course identifiers take. -/
def pyIsDigit (s : String) : Bool :=
  !s.data.isEmpty && s.data.all Char.isDigit

/-- The SIS scoped-lookup form recognised and constructed by `resolve`. -/
def sisScoped : String :=
  "sis_course_id:"

/-- `val.startswith("sis_course_id:")`. -/
def startsWithSis (s : String) : Bool :=
  sisScoped.data.isPrefixOf s.data

/-- What `resolve` returns: the resolved value, the cache state afterwards,
and how many `refresh()` network round-trips it performed.  `resolve`
always returns a string — there is no not-found exception path. -/
structure ResolveResult where
  value : String
  state : CourseCache
  refreshCalls : Nat
  deriving Repr, DecidableEq

/-- `resolve`: numeric pass-through, SIS pass-through, cache lookup,
refresh-and-retry when the forward map is empty, else the constructed
`sis_course_id:` fallback.  `listing` is what the lazy `refresh()` would
receive from the network. -/
def resolve (st : CourseCache) (identifier : String) (listing : List CourseRec) :
    ResolveResult :=
  let val := identifier
  if pyIsDigit val then ⟨val, st, 0⟩
  else if startsWithSis val then ⟨val, st, 0⟩
  else
    match dlookup st.code_to_id val with
    | some cid => ⟨cid, st, 0⟩
    | none =>
      if st.code_to_id.isEmpty then
        let st1 := refresh listing
        match dlookup st1.code_to_id val with
        | some cid => ⟨cid, st1, 1⟩
        | none => ⟨sisScoped ++ val, st1, 1⟩
      else ⟨sisScoped ++ val, st, 0⟩

/-- The cache-mutating operations: an explicit `refresh`, or a `resolve`
(which refreshes lazily).  `get_code` / `get_id` are pure lookups and do
not mutate. -/
inductive CacheOp
  | refreshOp (listing : List CourseRec)
  | resolveOp (identifier : String) (listing : List CourseRec)

def cacheStep (st : CourseCache) : CacheOp → CourseCache
  | .refreshOp l => refresh l
  | .resolveOp ident l => (resolve st ident l).state

/-- The two maps are mutually inverse: forward maps `code` to `cid` exactly
when backward maps `cid` to `code`.  The empty cache satisfies this
vacuously. -/
def Consistent (st : CourseCache) : Prop :=
  ∀ code cid, dlookup st.code_to_id code = some cid ↔
    dlookup st.id_to_code cid = some code

/-- Two courses sharing the course code "A". -/
def dupCodeListing : List CourseRec :=
  [{ id := some 1, course_code := some "A" },
   { id := some 2, course_code := some "A" }]

/-- C3 is false as stated: refreshing from a listing in which two courses
share the course code "A" leaves the maps inconsistent — the backward map
still sends id "1" to "A" while the forward map sends "A" to "2" (the
later course won), so the directions disagree and the state is neither
empty nor a consistent inverse pair. -/
theorem easel_C3_counterexample :
    cacheStep { code_to_id := [], id_to_code := [] } (.refreshOp dupCodeListing) =
      { code_to_id := [("A", "2")], id_to_code := [("1", "A"), ("2", "A")] } ∧
    ¬ Consistent (cacheStep { code_to_id := [], id_to_code := [] }
        (.refreshOp dupCodeListing)) := by
  refine ⟨rfl, fun h => ?_⟩
  have h1 : dlookup (cacheStep { code_to_id := [], id_to_code := [] }
      (.refreshOp dupCodeListing)).code_to_id "A" = some "1" :=
    (h "A" "1").mpr (by rfl)
  exact absurd h1 (by decide)

/-- A listing is duplicate-free when its kept `(cid, code)` pairs repeat
no id and no code. -/
def GoodListing (l : List CourseRec) : Prop :=
  ((l.filterMap keptPair).map Prod.fst).Nodup ∧
    ((l.filterMap keptPair).map Prod.snd).Nodup

def CacheOp.good : CacheOp → Prop
  | .refreshOp l => GoodListing l
  | .resolveOp _ l => GoodListing l

/-- The paired insertion `refresh` performs for one kept `(cid, code)`. -/
def pairStep (st : CourseCache) (p : String × String) : CourseCache :=
  { code_to_id := dinsert st.code_to_id p.2 p.1,
    id_to_code := dinsert st.id_to_code p.1 p.2 }

theorem refresh_eq_pairs_fold (courses : List CourseRec) :
    ∀ acc : CourseCache,
      courses.foldl refreshStep acc = (courses.filterMap keptPair).foldl pairStep acc := by
  induction courses with
  | nil => intro acc; rfl
  | cons c cs ih =>
    intro acc
    cases hk : keptPair c with
    | none =>
      rw [List.foldl_cons, List.filterMap_cons, hk]
      rw [show refreshStep acc c = acc from by rw [refreshStep, hk]]
      exact ih acc
    | some p =>
      rw [List.foldl_cons, List.filterMap_cons, hk, List.foldl_cons]
      rw [show refreshStep acc c = pairStep acc p from by
        rw [refreshStep, hk]
        rw [pairStep]]
      exact ih _

theorem dinsert_of_not_mem_keys {β : Type} (m : List (String × β)) (k : String)
    (v : β) (h : k ∉ m.map Prod.fst) : dinsert m k v = m ++ [(k, v)] := by
  rw [dinsert, if_neg]
  intro hc
  rw [List.any_eq_true] at hc
  obtain ⟨p, hp, hpk⟩ := hc
  rw [beq_iff_eq] at hpk
  exact h (hpk ▸ List.mem_map_of_mem Prod.fst hp)

theorem pairs_fold_spec (ps : List (String × String)) :
    ∀ acc : CourseCache,
      (∀ p ∈ ps, p.2 ∉ acc.code_to_id.map Prod.fst) →
      (∀ p ∈ ps, p.1 ∉ acc.id_to_code.map Prod.fst) →
      (ps.map Prod.snd).Nodup → (ps.map Prod.fst).Nodup →
      ps.foldl pairStep acc =
        { code_to_id := acc.code_to_id ++ ps.map Prod.swap,
          id_to_code := acc.id_to_code ++ ps } := by
  induction ps with
  | nil =>
    intro acc _ _ _ _
    simp
  | cons p ps ih =>
    intro acc h1 h2 hn2 hn1
    rw [List.foldl_cons]
    have hstep : pairStep acc p =
        { code_to_id := acc.code_to_id ++ [(p.2, p.1)],
          id_to_code := acc.id_to_code ++ [(p.1, p.2)] } := by
      rw [pairStep,
        dinsert_of_not_mem_keys _ _ _ (h1 p (List.mem_cons_self p ps)),
        dinsert_of_not_mem_keys _ _ _ (h2 p (List.mem_cons_self p ps))]
    rw [hstep]
    rw [List.map_cons] at hn1 hn2
    have hrec := ih
      { code_to_id := acc.code_to_id ++ [(p.2, p.1)],
        id_to_code := acc.id_to_code ++ [(p.1, p.2)] }
      (by
        intro q hq
        simp only [List.map_append, List.mem_append, List.map_cons, List.map_nil]
        rintro (hc | hc)
        · exact h1 q (List.mem_cons_of_mem _ hq) hc
        · have : q.2 = p.2 := by simpa using hc
          exact (List.nodup_cons.mp hn2).1 (this ▸ List.mem_map_of_mem Prod.snd hq))
      (by
        intro q hq
        simp only [List.map_append, List.mem_append, List.map_cons, List.map_nil]
        rintro (hc | hc)
        · exact h2 q (List.mem_cons_of_mem _ hq) hc
        · have : q.1 = p.1 := by simpa using hc
          exact (List.nodup_cons.mp hn1).1 (this ▸ List.mem_map_of_mem Prod.fst hq))
      (List.nodup_cons.mp hn2).2 (List.nodup_cons.mp hn1).2
    rw [hrec]
    simp [List.append_assoc, Prod.swap]

theorem dlookup_eq_some_iff {β : Type} (m : List (String × β))
    (hn : (m.map Prod.fst).Nodup) (k : String) (v : β) :
    dlookup m k = some v ↔ (k, v) ∈ m := by
  induction m with
  | nil => simp [dlookup]
  | cons p t ih =>
    rw [List.map_cons, List.nodup_cons] at hn
    by_cases hp : p.1 = k
    · rw [dlookup]
      rw [List.find?_cons_of_pos _ (by simpa using hp)]
      constructor
      · intro hv
        have hv2 : p.2 = v := by simpa using hv
        have hpe : p = (k, v) := by
          obtain ⟨p1, p2⟩ := p
          simp only at hp hv2
          rw [hp, hv2]
        rw [← hpe]
        exact List.mem_cons_self p t
      · intro hmem
        rcases List.mem_cons.mp hmem with hpv | htv
        · rw [← hpv]
          rfl
        · have hk : k ∈ t.map Prod.fst := List.mem_map_of_mem Prod.fst htv
          rw [← hp] at hk
          exact absurd hk hn.1
    · rw [dlookup, List.find?_cons_of_neg _ (by simpa using hp)]
      rw [show (List.find? (fun q => q.1 == k) t).map Prod.snd = dlookup t k from rfl]
      rw [ih hn.2, List.mem_cons]
      constructor
      · exact fun h => Or.inr h
      · rintro (hpv | htv)
        · exact absurd (congrArg Prod.fst hpv.symm) hp
        · exact htv

theorem consistent_refresh (l : List CourseRec) (hg : GoodListing l) :
    Consistent (refresh l) := by
  obtain ⟨hn1, hn2⟩ := hg
  have hfold := refresh_eq_pairs_fold l { code_to_id := [], id_to_code := [] }
  have hspec := pairs_fold_spec (l.filterMap keptPair)
    { code_to_id := [], id_to_code := [] } (by simp) (by simp) hn2 hn1
  have hrefresh : refresh l =
      { code_to_id := (l.filterMap keptPair).map Prod.swap,
        id_to_code := l.filterMap keptPair } := by
    rw [refresh, hfold, hspec]
    simp
  rw [hrefresh]
  intro code cid
  have hkeys1 : (((l.filterMap keptPair).map Prod.swap).map Prod.fst).Nodup := by
    rw [List.map_map]
    exact hn2
  rw [dlookup_eq_some_iff _ hkeys1, dlookup_eq_some_iff _ hn1]
  constructor
  · intro hmem
    obtain ⟨q, hq, hqe⟩ := List.mem_map.mp hmem
    have : q = (cid, code) := by
      obtain ⟨q1, q2⟩ := q
      obtain ⟨h1, h2⟩ := Prod.mk.injEq .. ▸ hqe
      simp [Prod.swap] at h1 h2
      simp [h1, h2]
    exact this ▸ hq
  · intro hmem
    exact List.mem_map.mpr ⟨(cid, code), hmem, rfl⟩

theorem consistent_empty : Consistent { code_to_id := [], id_to_code := [] } := by
  intro code cid
  simp [dlookup]

theorem resolve_state_cases (st : CourseCache) (val : String)
    (l : List CourseRec) :
    (resolve st val l).state = st ∨ (resolve st val l).state = refresh l := by
  rw [resolve]
  split
  · exact Or.inl rfl
  split
  · exact Or.inl rfl
  split
  · exact Or.inl rfl
  split
  · dsimp only
    split
    · exact Or.inr rfl
    · exact Or.inr rfl
  · exact Or.inl rfl

/-- C3 (amended): after any sequence of `refresh` and `resolve` operations
whose listings are duplicate-free (no repeated id and no repeated code
among the kept courses), the forward and backward maps are empty or
mutually inverse.  (With duplicates the invariant fails — see the
counterexample: the later course wins in each map separately and the
directions disagree.) -/
theorem easel_C3_cache_consistency (ops : List CacheOp)
    (hops : ∀ op ∈ ops, op.good) :
    Consistent (ops.foldl cacheStep { code_to_id := [], id_to_code := [] }) := by
  suffices h : ∀ st : CourseCache, Consistent st →
      Consistent (ops.foldl cacheStep st) from
    h _ consistent_empty
  induction ops with
  | nil => exact fun st hst => hst
  | cons op rest ih =>
    intro st hst
    rw [List.foldl_cons]
    refine ih (fun o ho => hops o (List.mem_cons_of_mem _ ho)) _ ?_
    have hgood := hops op (List.mem_cons_self op rest)
    cases op with
    | refreshOp l => exact consistent_refresh l hgood
    | resolveOp ident l =>
      rcases resolve_state_cases st ident l with hcase | hcase
      · rw [cacheStep, hcase]
        exact hst
      · rw [cacheStep, hcase]
        exact consistent_refresh l hgood

theorem easel_C3_witness :
    Consistent ([CacheOp.refreshOp
        [{ id := some 777, course_code := some "IS505" },
         { id := some 888, course_code := some "IS506" }],
      CacheOp.resolveOp "IS505"
        [{ id := some 777, course_code := some "IS505" }]].foldl cacheStep
      { code_to_id := [], id_to_code := [] }) := by
  apply easel_C3_cache_consistency
  intro op hop
  fin_cases hop <;> exact ⟨by decide, by decide⟩

/-- C7: `resolve` applies its steps in order, each short-circuiting: an
entirely numeric identifier and a recognised `sis_course_id:` identifier
pass through with zero refreshes; a code in the forward map returns the
mapped id; against an empty forward map exactly one refresh is performed
and the lookup retried once, falling back to the constructed
`sis_course_id:<identifier>` form; against a populated map with no match
the constructed scoped form is returned with zero refreshes.  `resolve`
is total — every branch returns a value, never a not-found error. -/
theorem easel_C7_resolve_order :
    (∀ (st : CourseCache) (l : List CourseRec) (val : String),
      pyIsDigit val = true → resolve st val l = ⟨val, st, 0⟩) ∧
    (∀ (st : CourseCache) (l : List CourseRec) (val : String),
      pyIsDigit val = false → startsWithSis val = true →
      resolve st val l = ⟨val, st, 0⟩) ∧
    (∀ (st : CourseCache) (l : List CourseRec) (val cid : String),
      pyIsDigit val = false → startsWithSis val = false →
      dlookup st.code_to_id val = some cid →
      resolve st val l = ⟨cid, st, 0⟩) ∧
    (∀ (st : CourseCache) (l : List CourseRec) (val cid : String),
      pyIsDigit val = false → startsWithSis val = false →
      dlookup st.code_to_id val = none → st.code_to_id = [] →
      dlookup (refresh l).code_to_id val = some cid →
      resolve st val l = ⟨cid, refresh l, 1⟩) ∧
    (∀ (st : CourseCache) (l : List CourseRec) (val : String),
      pyIsDigit val = false → startsWithSis val = false →
      dlookup st.code_to_id val = none → st.code_to_id = [] →
      dlookup (refresh l).code_to_id val = none →
      resolve st val l = ⟨sisScoped ++ val, refresh l, 1⟩) ∧
    (∀ (st : CourseCache) (l : List CourseRec) (val : String),
      pyIsDigit val = false → startsWithSis val = false →
      dlookup st.code_to_id val = none → st.code_to_id ≠ [] →
      resolve st val l = ⟨sisScoped ++ val, st, 0⟩) := by
  refine ⟨?_, ?_, ?_, ?_, ?_, ?_⟩
  · intro st l val h1
    simp [resolve, h1]
  · intro st l val h1 h2
    simp [resolve, h1, h2]
  · intro st l val cid h1 h2 h3
    simp [resolve, h1, h2, h3]
  · intro st l val cid h1 h2 h3 h4 h5
    have h0 : dlookup ([] : List (String × String)) val = none := rfl
    simp [resolve, h1, h2, h4, h0, h5]
  · intro st l val h1 h2 h3 h4 h5
    have h0 : dlookup ([] : List (String × String)) val = none := rfl
    simp [resolve, h1, h2, h4, h0, h5]
  · intro st l val h1 h2 h3 h4
    simp [resolve, h1, h2, h3, h4]

theorem easel_C7_witness :
    resolve { code_to_id := [], id_to_code := [] } "12345" [] =
      ⟨"12345", { code_to_id := [], id_to_code := [] }, 0⟩ ∧
    resolve { code_to_id := [], id_to_code := [] } "sis_course_id:ABC" [] =
      ⟨"sis_course_id:ABC", { code_to_id := [], id_to_code := [] }, 0⟩ ∧
    resolve { code_to_id := [("IS505", "777")], id_to_code := [("777", "IS505")] }
        "IS505" [] =
      ⟨"777", { code_to_id := [("IS505", "777")], id_to_code := [("777", "IS505")] }, 0⟩ ∧
    resolve { code_to_id := [], id_to_code := [] } "IS505"
        [{ id := some 777, course_code := some "IS505" }] =
      ⟨"777", refresh [{ id := some 777, course_code := some "IS505" }], 1⟩ ∧
    resolve { code_to_id := [], id_to_code := [] } "NOPE"
        [{ id := some 777, course_code := some "IS505" }] =
      ⟨"sis_course_id:NOPE", refresh [{ id := some 777, course_code := some "IS505" }], 1⟩ ∧
    resolve { code_to_id := [("IS505", "777")], id_to_code := [("777", "IS505")] }
        "UNKNOWN999" [] =
      ⟨"sis_course_id:UNKNOWN999",
        { code_to_id := [("IS505", "777")], id_to_code := [("777", "IS505")] }, 0⟩ := by
  refine ⟨?_, ?_, ?_, ?_, ?_, ?_⟩
  · exact easel_C7_resolve_order.1 _ _ _ (by decide)
  · exact easel_C7_resolve_order.2.1 _ _ _ (by decide) (by decide)
  · exact easel_C7_resolve_order.2.2.1 _ _ _ _ (by decide) (by decide) (by decide)
  · exact easel_C7_resolve_order.2.2.2.1 _ _ _ _ (by decide) (by decide) (by decide)
      (by decide) (by decide)
  · exact easel_C7_resolve_order.2.2.2.2.1 _ _ _ (by decide) (by decide) (by decide)
      (by decide) (by decide)
  · exact easel_C7_resolve_order.2.2.2.2.2 _ _ _ (by decide) (by decide) (by decide)
      (by decide)

/-! ## Credential storage (src/easel/config/credentials.py)

Fernet is modelled symbolically: a well-formed ciphertext records the key
it was encrypted under and the plaintext; decryption succeeds exactly for
a well-formed ciphertext under the matching key (Fernet's HMAC check
rejects a wrong key or corrupted data).  Keys are abstract tokens
(`Nat`).  The OS keyring and the filesystem are fields of an explicit
state: `keyringAvailable` tells whether keyring calls raise,
`keyringKey` / `keyFile` hold the stored encryption key (if any), and
`credFile` is the YAML credentials file (`none` when it does not exist).
`Fernet.generate_key()` is the explicit `freshKey` parameter. -/

inductive Blob
  | enc (key : Nat) (token : String)
  | corrupt (tag : Nat)
  deriving Repr, DecidableEq

def fernet_decrypt (key : Nat) : Blob → Option String
  | .enc k t => if k = key then some t else none
  | .corrupt _ => none

structure CredState where
  keyringAvailable : Bool
  keyringKey : Option Nat
  keyFile : Option Nat
  credFile : Option (List (String × Blob))
  deriving Repr, DecidableEq

/-- `_get_encryption_key`: try the keyring; on a hit return the stored
key.  Otherwise generate a new key and store it — in the keyring if it is
available, else by (over)writing the local key file.  Note the existing
key file is never read on this path. -/
def get_encryption_key (st : CredState) (freshKey : Nat) : Nat × CredState :=
  match st.keyringAvailable, st.keyringKey with
  | true, some k => (k, st)
  | true, none => (freshKey, { st with keyringKey := some freshKey })
  | false, _ => (freshKey, { st with keyFile := some freshKey })

/-- `store_token`: resolve a key, encrypt, and merge the entry into the
credentials file. -/
def store_token (st : CredState) (freshKey : Nat) (instance_name token : String) :
    CredState :=
  let resolved := get_encryption_key st freshKey
  let credentials := resolved.2.credFile.getD []
  { resolved.2 with
    credFile := some (dinsert credentials instance_name (.enc resolved.1 token)) }

inductive GetTokenResult
  | ok (token : Option String)
  | decryptionError (message : String)
  deriving Repr, DecidableEq

/-- `get_token`: absent file or absent entry yields `ok none`; otherwise
resolve a key (keyring first, then the key file — never generating one),
and decrypt, mapping any decryption failure to `CredentialDecryptionError`. -/
def get_token (st : CredState) (instance_name : String) : GetTokenResult :=
  match st.credFile with
  | none => .ok none
  | some credentials =>
    match dlookup credentials instance_name with
    | none => .ok none
    | some blob =>
      let key : Option Nat :=
        match st.keyringAvailable, st.keyringKey with
        | true, some k => some k
        | _, _ => st.keyFile
      match key with
      | none => .decryptionError "Encryption key not found"
      | some k =>
        match fernet_decrypt k blob with
        | some t => .ok (some t)
        | none => .decryptionError "Failed to retrieve credential: InvalidToken"

/-- Corrupting the ciphertext stored for one instance, leaving keys and
other entries alone. -/
def corrupt_entry (st : CredState) (instance_name : String) (tag : Nat) : CredState :=
  { st with
    credFile := st.credFile.map (fun creds => dinsert creds instance_name (.corrupt tag)) }

theorem dlookup_map_replace {β : Type} (m : List (String × β)) (k k' : String)
    (v : β) (hne : k' ≠ k) :
    dlookup (m.map (fun p => if p.1 == k then (k, v) else p)) k' = dlookup m k' := by
  induction m with
  | nil => rfl
  | cons q t ih =>
    rw [List.map_cons, dlookup, dlookup]
    by_cases hq : q.1 = k
    · rw [if_pos (by simpa using hq)]
      rw [List.find?_cons_of_neg _ (by
        simp only [beq_iff_eq]
        exact fun hc => hne hc.symm)]
      rw [List.find?_cons_of_neg _ (by
        simp only [beq_iff_eq, hq]
        exact fun hc => hne hc.symm)]
      exact ih
    · rw [if_neg (by simpa using hq)]
      by_cases hq' : q.1 = k'
      · rw [List.find?_cons_of_pos _ (by simpa using hq'),
          List.find?_cons_of_pos _ (by simpa using hq')]
      · rw [List.find?_cons_of_neg _ (by simpa using hq'),
          List.find?_cons_of_neg _ (by simpa using hq')]
        exact ih

theorem dlookup_append_single {β : Type} (m : List (String × β)) (k k' : String)
    (v : β) (hne : k' ≠ k) :
    dlookup (m ++ [(k, v)]) k' = dlookup m k' := by
  induction m with
  | nil =>
    rw [List.nil_append, dlookup,
      List.find?_cons_of_neg _ (by
        simp only [beq_iff_eq]
        exact fun hc => hne hc.symm)]
    rfl
  | cons q t ih =>
    rw [List.cons_append, dlookup, dlookup]
    by_cases hq' : q.1 = k'
    · rw [List.find?_cons_of_pos _ (by simpa using hq'),
        List.find?_cons_of_pos _ (by simpa using hq')]
    · rw [List.find?_cons_of_neg _ (by simpa using hq'),
        List.find?_cons_of_neg _ (by simpa using hq')]
      exact ih

theorem dlookup_dinsert_ne {β : Type} (m : List (String × β)) (k k' : String) (v : β)
    (hne : k' ≠ k) : dlookup (dinsert m k v) k' = dlookup m k' := by
  rw [dinsert]
  split
  · exact dlookup_map_replace m k k' v hne
  · exact dlookup_append_single m k k' v hne

theorem dlookup_map_replace_self {β : Type} (m : List (String × β)) (k : String)
    (v : β) (hany : m.any (fun p => p.1 == k) = true) :
    dlookup (m.map (fun p => if p.1 == k then (k, v) else p)) k = some v := by
  induction m with
  | nil => simp at hany
  | cons q t ih =>
    rw [List.map_cons, dlookup]
    by_cases hq : q.1 = k
    · rw [if_pos (by simpa using hq), List.find?_cons_of_pos _ (by simp)]
      rfl
    · rw [if_neg (by simpa using hq), List.find?_cons_of_neg _ (by simpa using hq)]
      rw [List.any_cons] at hany
      have ht : t.any (fun p => p.1 == k) = true := by
        rcases Bool.or_eq_true_iff.mp hany with hh | hh
        · exact absurd (by simpa using hh) hq
        · exact hh
      exact ih ht

theorem dlookup_append_single_self {β : Type} (m : List (String × β)) (k : String)
    (v : β) (hnone : m.any (fun p => p.1 == k) = false) :
    dlookup (m ++ [(k, v)]) k = some v := by
  induction m with
  | nil =>
    rw [List.nil_append, dlookup, List.find?_cons_of_pos _ (by simp)]
    rfl
  | cons q t ih =>
    rw [List.any_cons, Bool.or_eq_false_iff] at hnone
    rw [List.cons_append, dlookup,
      List.find?_cons_of_neg _ (by simp only [hnone.1]; exact Bool.false_ne_true)]
    exact ih hnone.2

theorem dlookup_dinsert_self {β : Type} (m : List (String × β)) (k : String) (v : β) :
    dlookup (dinsert m k v) k = some v := by
  rw [dinsert]
  split
  · rename_i hany
    exact dlookup_map_replace_self m k v hany
  · rename_i hany
    exact dlookup_append_single_self m k v (by
      rcases Bool.eq_false_or_eq_true (m.any (fun p => p.1 == k)) with h | h
      · exact absurd h hany
      · exact h)

/-- C8: under the same state (hence the same resolved encryption key),
`store_token` then `get_token` returns exactly the stored token — in each
of the three key-resolution situations (keyring hit, keyring available
but empty, keyring unavailable); corrupting the stored ciphertext makes
`get_token` raise the decryption error rather than return garbage; and an
instance with no record yields `ok none` without raising. -/
theorem easel_C8_store_get_roundtrip :
    (∀ (st : CredState) (freshKey : Nat) (inst token : String),
      get_token (store_token st freshKey inst token) inst = .ok (some token)) ∧
    (∀ (st : CredState) (freshKey tag : Nat) (inst token : String),
      get_token (corrupt_entry (store_token st freshKey inst token) inst tag) inst =
        .decryptionError "Failed to retrieve credential: InvalidToken") ∧
    (∀ (st : CredState) (inst : String),
      (∀ creds, st.credFile = some creds → dlookup creds inst = none) →
      get_token st inst = .ok none) := by
  refine ⟨?_, ?_, ?_⟩
  · intro st freshKey inst token
    cases hkr : st.keyringAvailable <;> cases hkk : st.keyringKey <;>
      simp [store_token, get_encryption_key, get_token, corrupt_entry, hkr, hkk,
        dlookup_dinsert_self, fernet_decrypt]
  · intro st freshKey tag inst token
    cases hkr : st.keyringAvailable <;> cases hkk : st.keyringKey <;>
      simp [store_token, get_encryption_key, get_token, corrupt_entry, hkr, hkk,
        dlookup_dinsert_self, fernet_decrypt]
  · intro st inst h
    cases hc : st.credFile with
    | none => simp [get_token, hc]
    | some creds => simp [get_token, hc, h creds hc]

theorem easel_C8_witness :
    get_token (store_token
        { keyringAvailable := false, keyringKey := none, keyFile := none,
          credFile := none } 5 "inst" "secret") "inst" = .ok (some "secret") ∧
      get_token (corrupt_entry (store_token
          { keyringAvailable := false, keyringKey := none, keyFile := none,
            credFile := none } 5 "inst" "secret") "inst" 0) "inst" =
        .decryptionError "Failed to retrieve credential: InvalidToken" ∧
      get_token
        { keyringAvailable := false, keyringKey := none, keyFile := none,
          credFile := none } "inst" = .ok none :=
  ⟨easel_C8_store_get_roundtrip.1 _ 5 "inst" "secret",
    easel_C8_store_get_roundtrip.2.1 _ 5 0 "inst" "secret",
    easel_C8_store_get_roundtrip.2.2 _ "inst" (fun _ h => Option.noConfusion h)⟩

/-- C9: with the keyring unavailable, `_get_encryption_key` never reads an
existing key file — it hands back the freshly generated key and
overwrites the key file with it — so a second `store_token` for a
different instance rotates the key out from under the first: the earlier
credential then fails to decrypt and `get_token` raises the decryption
error instead of returning the stored token. -/
theorem easel_C9_key_overwrite (st : CredState) (k1 k2 : Nat) (a b t1 t2 : String)
    (hkr : st.keyringAvailable = false) (hk : k1 ≠ k2) (hab : a ≠ b) :
    (store_token st k1 a t1).keyFile = some k1 ∧
      (get_encryption_key (store_token st k1 a t1) k2).1 = k2 ∧
      (get_encryption_key (store_token st k1 a t1) k2).2.keyFile = some k2 ∧
      get_token (store_token (store_token st k1 a t1) k2 b t2) a =
        .decryptionError "Failed to retrieve credential: InvalidToken" := by
  have h1 : store_token st k1 a t1 =
      { keyringAvailable := st.keyringAvailable, keyringKey := st.keyringKey,
        keyFile := some k1,
        credFile := some (dinsert (st.credFile.getD []) a (.enc k1 t1)) } := by
    simp [store_token, get_encryption_key, hkr]
  refine ⟨by rw [h1], ?_, ?_, ?_⟩
  · rw [h1]
    simp [get_encryption_key, hkr]
  · rw [h1]
    simp [get_encryption_key, hkr]
  · rw [h1]
    have h2 : store_token
        { keyringAvailable := st.keyringAvailable, keyringKey := st.keyringKey,
          keyFile := some k1,
          credFile := some (dinsert (st.credFile.getD []) a (.enc k1 t1)) } k2 b t2 =
        { keyringAvailable := st.keyringAvailable, keyringKey := st.keyringKey,
          keyFile := some k2,
          credFile := some (dinsert (dinsert (st.credFile.getD []) a (.enc k1 t1))
            b (.enc k2 t2)) } := by
      simp [store_token, get_encryption_key, hkr]
    rw [h2]
    simp only [get_token]
    rw [dlookup_dinsert_ne _ _ _ _ hab, dlookup_dinsert_self]
    simp [hkr, fernet_decrypt, hk]

theorem easel_C9_witness :
    (store_token
        { keyringAvailable := false, keyringKey := none, keyFile := some 9,
          credFile := none } 0 "a" "t1").keyFile = some 0 ∧
      (get_encryption_key (store_token
          { keyringAvailable := false, keyringKey := none, keyFile := some 9,
            credFile := none } 0 "a" "t1") 1).1 = 1 ∧
      (get_encryption_key (store_token
          { keyringAvailable := false, keyringKey := none, keyFile := some 9,
            credFile := none } 0 "a" "t1") 1).2.keyFile = some 1 ∧
      get_token (store_token (store_token
          { keyringAvailable := false, keyringKey := none, keyFile := some 9,
            credFile := none } 0 "a" "t1") 1 "b" "t2") "a" =
        .decryptionError "Failed to retrieve credential: InvalidToken" :=
  easel_C9_key_overwrite
    { keyringAvailable := false, keyringKey := none, keyFile := some 9,
      credFile := none } 0 1 "a" "b" "t1" "t2" rfl (by decide) (by decide)

end Easel
